import Mathlib

/-!
Verification development for the `alpha_obi` market-making decision core.

The Python sources are shallowly embedded over exact arithmetic:
prices, quantities and signal values become `ℚ` (the signal itself,
which involves a square root, lives in `ℝ`), millisecond timestamps
become `ℤ`, and the mutable `deque` history becomes an explicit
`List (ℤ × ℚ)` threaded through the functions.  Fallible operations
(indexing an empty book side, fetching resting orders) are embedded
with `Except`.
-/

namespace AlphaObi

/-! ## SignalEngine: `src/obi_calculator.py` (`OBICalculator`) -/

/-- The one failure mode of `OBICalculator.compute_raw_imbalance`
(`obi_calculator.py:45-46`): indexing `bids[0]` / `asks[0]` on an empty
side.  The spec's error taxonomy names this `InsufficientDepthError`. -/
inductive ObiError where
  | insufficientDepthError
deriving DecidableEq, Repr

/-- State of `OBICalculator`: the `depth` band parameter, the window
length `window_ms` in milliseconds, and the `history` deque of
`(timestamp_ms, raw_imbalance)` samples (`obi_calculator.py:33-37`). -/
structure OBICalculator where
  depth : ℚ
  window_ms : ℤ
  history : List (ℤ × ℚ)
deriving DecidableEq, Repr

/-- `OBICalculator.compute_raw_imbalance` (`obi_calculator.py:39-55`):
`best_bid = bids[0][0]`, `best_ask = asks[0][0]`,
`mid = (best_bid + best_ask)/2`, band `[mid·(1−depth), mid·(1+depth)]`,
result `Σ bid_qty over price ≥ lower − Σ ask_qty over price ≤ upper`.
Indexing an empty side raises, embedded as `Except.error`. -/
def compute_raw_imbalance (depth : ℚ) (bids asks : List (ℚ × ℚ)) :
    Except ObiError ℚ :=
  match bids, asks with
  | [], _ => .error .insufficientDepthError
  | _, [] => .error .insufficientDepthError
  | (best_bid, _) :: _, (best_ask, _) :: _ =>
    let mid_price := (best_bid + best_ask) / 2
    let lower := mid_price * (1 - depth)
    let upper := mid_price * (1 + depth)
    let sum_bid := ((bids.filter (fun pq => lower ≤ pq.1)).map Prod.snd).sum
    let sum_ask := ((asks.filter (fun pq => pq.1 ≤ upper)).map Prod.snd).sum
    .ok (sum_bid - sum_ask)

/-- `OBICalculator._purge_expired` (`obi_calculator.py:84-91`): pop from
the front while the head's timestamp is `< current_ts − window_ms`. -/
def purge_expired (window_ms : ℤ) (current_ts : ℤ) :
    List (ℤ × ℚ) → List (ℤ × ℚ)
  | [] => []
  | (t, r) :: rest =>
    if t < current_ts - window_ms then purge_expired window_ms current_ts rest
    else (t, r) :: rest

/-- Arithmetic mean of a list of rationals (`np.nanmean` on a NaN-free
array; `0/0 = 0` in `ℚ` covers only the empty list, which
`compute_alpha` never produces). -/
def listMean (l : List ℚ) : ℚ := l.sum / l.length

/-- Population variance (square of `np.nanstd` on a NaN-free array). -/
def pvariance (l : List ℚ) : ℚ :=
  ((l.map (fun x => (x - listMean l) ^ 2)).sum) / l.length

/-- Population standard deviation `np.nanstd`, exact: `√variance`. -/
noncomputable def pstd (l : List ℚ) : ℝ := Real.sqrt (pvariance l)

/-- `OBICalculator.compute_alpha` (`obi_calculator.py:57-82`): purge the
expired samples first, compute the raw imbalance (an empty side fails
here, with the purge already applied to the state), append `(ts, raw)`,
then z-score `raw` against the retained raw values; if the standard
deviation is zero the signal is `0`.  (`np.isnan(s)` is never true in
the exact model: the freshly appended sample makes the array nonempty
and NaN-free.)  Returns the updated calculator state and the signal. -/
noncomputable def compute_alpha (st : OBICalculator) (ts : ℤ)
    (bids asks : List (ℚ × ℚ)) : OBICalculator × Except ObiError ℝ :=
  let hist₁ := purge_expired st.window_ms ts st.history
  match compute_raw_imbalance st.depth bids asks with
  | .error e => ({ st with history := hist₁ }, .error e)
  | .ok raw =>
    let hist₂ := hist₁ ++ [(ts, raw)]
    let arr := hist₂.map Prod.snd
    let m := listMean arr
    let s := pstd arr
    let alpha : ℝ :=
      @ite ℝ (s = 0) (Classical.propDecidable _) 0 (((raw : ℝ) - (m : ℝ)) / s)
    ({ st with history := hist₂ }, .ok alpha)

/-! ## QuoteEngine / OrderReconciler: `src/strategy.py`
(`MarketMakingStrategy`) -/

/-- Python's built-in `round` (used as `int(round(price / tick_size))`
at `strategy.py:213`) and the rounding of `f"{x:.pf}"` formatting:
round half to even.  (On a decimal tie the Python result can further
depend on the binary representation of the float; the exact model takes
the ideal half-to-even value.) -/
def pyRound (x : ℚ) : ℤ :=
  let f := ⌊x⌋
  let frac := x - f
  if frac < 1 / 2 then f
  else if 1 / 2 < frac then f + 1
  else if Even f then f else f + 1

/-- `float(f"{x:.{precision}f}")` (`strategy.py:179-180`): round `x`
to `precision` decimal digits. -/
def roundPrec (precision : ℕ) (x : ℚ) : ℚ :=
  (pyRound (x * 10 ^ precision) : ℚ) / 10 ^ precision

/-- The fields of `TickContext` that `calculate_prices` fills in
(`strategy.py:183-188`): the spec's `QuoteTarget`. -/
structure QuoteTarget where
  bid_price : ℚ
  ask_price : ℚ
  bid_tick : ℤ
  ask_tick : ℤ
  mid_price : ℚ
  position : ℚ
deriving DecidableEq, Repr

/-- The fields of `MarketMakingStrategy` consulted by
`calculate_prices` and `manage_orders`.  (`max_position_btc`,
`price_delta_threshold` and `last_mid` are never read by either
method, so they are not modelled.) -/
structure MarketMakingStrategy where
  symbol : String
  order_qty : ℚ
  c1 : ℚ
  half_spread : ℚ
  skew : ℚ
  tick_size : ℚ
  precision : ℕ
deriving DecidableEq, Repr

/-- `MarketMakingStrategy.calculate_prices` (`strategy.py:115-189`),
pure core.  `position` is the inventory the method fetches from the
exchange; an empty side contributes `0.0` as its best price
(`strategy.py:124-125`). -/
def calculate_prices (s : MarketMakingStrategy) (bids asks : List (ℚ × ℚ))
    (alpha : ℚ) (position : ℚ) : QuoteTarget :=
  let best_bid := match bids with | [] => 0 | (p, _) :: _ => p
  let best_ask := match asks with | [] => 0 | (p, _) :: _ => p
  let mid_price := (best_bid + best_ask) / 2
  let fair_price := mid_price + s.c1 * alpha
  let normalized_position :=
    if s.order_qty ≠ 0 then position / s.order_qty else 0
  let reservation_price := fair_price - s.skew * normalized_position
  let raw_bid0 := reservation_price - s.half_spread
  let raw_bid_price :=
    if best_bid ≤ raw_bid0 then best_bid - s.tick_size else raw_bid0
  let raw_ask0 := reservation_price + s.half_spread
  let raw_ask_price :=
    if raw_ask0 ≤ best_ask then best_ask + s.tick_size else raw_ask0
  let bid_tick := ⌊raw_bid_price / s.tick_size⌋
  let ask_tick := ⌈raw_ask_price / s.tick_size⌉
  { bid_price := roundPrec s.precision (bid_tick * s.tick_size)
    ask_price := roundPrec s.precision (ask_tick * s.tick_size)
    bid_tick := bid_tick
    ask_tick := ask_tick
    mid_price := mid_price
    position := position }

inductive Side where
  | buy
  | sell
deriving DecidableEq, Repr

/-- A resting open order as read by `manage_orders`: only the `side`
and `price` fields are consulted (`strategy.py:211-217`). -/
structure OpenOrder where
  side : Side
  price : ℚ
deriving DecidableEq, Repr

/-- Order actions dispatched to the exchange: `cancel_all_orders` and
the entries of the `create_orders` batch (`strategy.py:230-254`). -/
inductive OrderAction where
  | cancelAll (symbol : String)
  | create (symbol : String) (side : Side) (price : ℚ) (amount : ℚ)
deriving DecidableEq, Repr

/-- Log levels of the records `manage_orders` can emit.  The source
emits only the INFO tick summary `ctx.log()` (`strategy.py:257`,
`bean/types.py:38-78`); no warning record appears anywhere in the
method. -/
inductive LogLevel where
  | info
  | warning
deriving DecidableEq, Repr

/-- Result of a `manage_orders` pass: the actions dispatched to the
exchange, in order, and the levels of the log records emitted. -/
structure ManageResult where
  actions : List OrderAction
  logs : List LogLevel
deriving DecidableEq, Repr

/-- Tick ids of the resting orders of one side (`strategy.py:208-217`):
`tick = int(round(price / tick_size))`, collected per side.  The
Python `set` is modelled as a list queried only through membership. -/
def existing_ticks (tick_size : ℚ) (side : Side)
    (open_orders : List OpenOrder) : List ℤ :=
  (open_orders.filter (fun o => o.side == side)).map
    (fun o => pyRound (o.price / tick_size))

/-- Close-before-open sizing (`strategy.py:219-228`): `(buy_qty,
sell_qty)` from the current position and `order_qty`. -/
def desired_qtys (order_qty position : ℚ) : ℚ × ℚ :=
  if 0 < position then (max (order_qty - position) 0, order_qty)
  else if position < 0 then (order_qty, max (order_qty - |position|) 0)
  else (order_qty, order_qty)

/-- `MarketMakingStrategy.manage_orders` (`strategy.py:191-257`), pure
core.  `fetched` is the outcome of `fetch_open_orders`; the bare
`except` falls back to an empty list — its handler contains only the
assignment, no log call (`strategy.py:203-206`).  A create entry is
appended per side iff the target tick is absent and the desired
quantity is positive; a non-empty batch is preceded by
`cancel_all_orders` and followed by the INFO tick summary. -/
def manage_orders (s : MarketMakingStrategy) (target : QuoteTarget)
    (fetched : Except Unit (List OpenOrder)) : ManageResult :=
  let open_orders := match fetched with | .error _ => [] | .ok l => l
  let existing_buy_ticks := existing_ticks s.tick_size .buy open_orders
  let existing_sell_ticks := existing_ticks s.tick_size .sell open_orders
  let qtys := desired_qtys s.order_qty target.position
  let buy_qty := qtys.1
  let sell_qty := qtys.2
  let to_create :=
    (if target.bid_tick ∉ existing_buy_ticks ∧ 0 < buy_qty then
      [OrderAction.create s.symbol .buy target.bid_price buy_qty] else [])
    ++
    (if target.ask_tick ∉ existing_sell_ticks ∧ 0 < sell_qty then
      [OrderAction.create s.symbol .sell target.ask_price sell_qty] else [])
  if to_create.isEmpty then { actions := [], logs := [] }
  else { actions := OrderAction.cancelAll s.symbol :: to_create
         logs := [.info] }

/-- The resting orders produced by a pass's create actions: after the
batch is accepted, an order rests at each created side and price. -/
def created_orders (actions : List OrderAction) : List OpenOrder :=
  actions.filterMap (fun a =>
    match a with
    | .create _ side price _ => some ⟨side, price⟩
    | _ => none)

/-- `MarketMakingStrategy.on_tick` (`strategy.py:259-275`), pure core:
build the quote target with `calculate_prices`, then reconcile it with
`manage_orders`.  (`ts` is only used for log formatting and is not
modelled.) -/
def on_tick (s : MarketMakingStrategy) (bids asks : List (ℚ × ℚ))
    (alpha position : ℚ) (fetched : Except Unit (List OpenOrder)) :
    ManageResult :=
  manage_orders s (calculate_prices s bids asks alpha position) fetched

/-- Scale every quantity of a book side by `c`, keeping the prices:
used to state linearity of the raw imbalance in the quantities. -/
def scale_qty (c : ℚ) (l : List (ℚ × ℚ)) : List (ℚ × ℚ) :=
  l.map (fun pq => (pq.1, c * pq.2))

/-! ## Helper lemmas -/

lemma pyRound_intCast (k : ℤ) : pyRound (k : ℚ) = k := by
  unfold pyRound
  norm_num

lemma roundPrec_of_tick_pow (p : ℕ) (k : ℤ) :
    roundPrec p ((k : ℚ) * (1 / 10 ^ p)) = (k : ℚ) * (1 / 10 ^ p) := by
  unfold roundPrec
  have h10 : (10 : ℚ) ^ p ≠ 0 := by positivity
  have hk : (k : ℚ) * (1 / 10 ^ p) * 10 ^ p = (k : ℚ) := by
    field_simp
  rw [hk, pyRound_intCast]
  field_simp

lemma floor_tick_le {x t : ℚ} (ht : 0 < t) : ((⌊x / t⌋ : ℚ) * t) ≤ x := by
  have h := Int.floor_le (x / t)
  have := mul_le_mul_of_nonneg_right h ht.le
  rwa [div_mul_cancel₀ x ht.ne'] at this

lemma le_ceil_tick {x t : ℚ} (ht : 0 < t) : x ≤ ((⌈x / t⌉ : ℚ) * t) := by
  have h := Int.le_ceil (x / t)
  have := mul_le_mul_of_nonneg_right h ht.le
  rwa [div_mul_cancel₀ x ht.ne'] at this

lemma guarded_floor_lt (bb rb t : ℚ) (ht : 0 < t) :
    ((⌊(if bb ≤ rb then bb - t else rb) / t⌋ : ℚ) * t) < bb := by
  have h1 : (if bb ≤ rb then bb - t else rb) < bb := by
    by_cases h : bb ≤ rb
    · simp only [if_pos h]; linarith
    · simp only [if_neg h]; exact not_le.mp h
  exact lt_of_le_of_lt (floor_tick_le ht) h1

lemma guarded_ceil_gt (ba ra t : ℚ) (ht : 0 < t) :
    ba < ((⌈(if ra ≤ ba then ba + t else ra) / t⌉ : ℚ) * t) := by
  have h1 : ba < (if ra ≤ ba then ba + t else ra) := by
    by_cases h : ra ≤ ba
    · simp only [if_pos h]; linarith
    · simp only [if_neg h]; exact not_le.mp h
  exact lt_of_lt_of_le h1 (le_ceil_tick ht)

lemma purge_expired_timestamp_bound (w ts : ℤ) (h : List (ℤ × ℚ))
    (hs : h.Pairwise (fun a b => a.1 ≤ b.1)) :
    ∀ p ∈ purge_expired w ts h, ts - w ≤ p.1 := by
  induction h with
  | nil => simp [purge_expired]
  | cons hd tl ih =>
    intro p hp
    rw [purge_expired] at hp
    by_cases hcut : hd.1 < ts - w
    · rw [if_pos hcut] at hp
      exact ih (List.Pairwise.of_cons hs) p hp
    · rw [if_neg hcut] at hp
      rcases List.mem_cons.mp hp with h1 | h2
      · subst h1; exact not_lt.mp hcut
      · have hle : hd.1 ≤ p.1 := (List.pairwise_cons.mp hs).1 p h2
        exact le_trans (not_lt.mp hcut) hle

lemma pvariance_nonneg (l : List ℚ) : 0 ≤ pvariance l := by
  unfold pvariance
  apply div_nonneg
  · apply List.sum_nonneg
    intro x hx
    rcases List.mem_map.mp hx with ⟨y, _, rfl⟩
    positivity
  · positivity

lemma pstd_eq_zero_iff (l : List ℚ) : pstd l = 0 ↔ pvariance l = 0 := by
  unfold pstd
  have hnn : (0 : ℝ) ≤ (pvariance l : ℝ) := by
    exact_mod_cast pvariance_nonneg l
  constructor
  · intro h
    have := (Real.sqrt_eq_zero hnn).mp h
    exact_mod_cast this
  · intro h
    rw [h]
    simp

lemma filter_map_sum_scale (c : ℚ) (l : List (ℚ × ℚ)) (pred : ℚ → Bool) :
    (((scale_qty c l).filter (fun pq => pred pq.1)).map Prod.snd).sum =
      c * ((l.filter (fun pq => pred pq.1)).map Prod.snd).sum := by
  induction l with
  | nil => simp [scale_qty]
  | cons hd tl ih =>
    by_cases h : pred hd.1
    · simp only [scale_qty, List.map_cons, List.filter_cons] at *
      simp only [h, if_pos] at *
      simp only [List.map_cons, List.sum_cons, ih, mul_add]
    · simp only [scale_qty, List.map_cons, List.filter_cons] at *
      simp only [h, if_neg] at *
      simpa using ih

lemma filter_map_sum_zip_add (P q₁ q₂ : List ℚ) (pred : ℚ → Bool)
    (h₁ : q₁.length = P.length) (h₂ : q₂.length = P.length) :
    (((P.zip (List.zipWith (· + ·) q₁ q₂)).filter
        (fun pq => pred pq.1)).map Prod.snd).sum =
      (((P.zip q₁).filter (fun pq => pred pq.1)).map Prod.snd).sum +
      (((P.zip q₂).filter (fun pq => pred pq.1)).map Prod.snd).sum := by
  induction P generalizing q₁ q₂ with
  | nil => simp
  | cons p Ps ih =>
    cases q₁ with
    | nil => simp at h₁
    | cons a as =>
      cases q₂ with
      | nil => simp at h₂
      | cons b bs =>
        have h₁' : as.length = Ps.length := by simpa using h₁
        have h₂' : bs.length = Ps.length := by simpa using h₂
        simp only [List.zipWith_cons_cons, List.zip_cons_cons, List.filter_cons]
        by_cases h : pred p
        · simp only [h, if_pos, List.map_cons, List.sum_cons, ih as bs h₁' h₂']
          ring
        · simp only [h, if_neg]
          exact ih as bs h₁' h₂'

/-! ## Claims -/

/-- C1 (amended): after the non-crossing guard, the tick-quantized
prices strictly avoid the top of book — `bid_tick · tick_size <
best_bid` and `best_ask < ask_tick · tick_size` — for every snapshot
with non-empty bids and asks, every signal, every inventory and every
`tick_size > 0`; and whenever `tick_size = 10 ^ (−precision)` (the
case produced by `initialize` from a price precision) the final
precision-rounded outputs satisfy `bid_price < best_bid` and
`ask_price > best_ask` as well.  Over arbitrary `tick_size > 0` the
original claim fails at the precision-rounding step (see the
counterexample). -/
theorem calculate_prices_non_crossing (s : MarketMakingStrategy)
    (bb qb ba qa alpha position : ℚ) (bts ats : List (ℚ × ℚ))
    (ht : 0 < s.tick_size) :
    (((calculate_prices s ((bb, qb) :: bts) ((ba, qa) :: ats) alpha
          position).bid_tick : ℚ) * s.tick_size < bb ∧
      ba < ((calculate_prices s ((bb, qb) :: bts) ((ba, qa) :: ats) alpha
          position).ask_tick : ℚ) * s.tick_size) ∧
    (s.tick_size = 1 / 10 ^ s.precision →
      (calculate_prices s ((bb, qb) :: bts) ((ba, qa) :: ats) alpha
          position).bid_price < bb ∧
      ba < (calculate_prices s ((bb, qb) :: bts) ((ba, qa) :: ats) alpha
          position).ask_price) := by
  simp only [calculate_prices]
  refine ⟨⟨guarded_floor_lt _ _ _ ht, guarded_ceil_gt _ _ _ ht⟩, fun htp => ?_⟩
  rw [htp]
  rw [roundPrec_of_tick_pow, roundPrec_of_tick_pow]
  have ht' : (0 : ℚ) < 1 / 10 ^ s.precision := by positivity
  exact ⟨guarded_floor_lt _ _ _ ht', guarded_ceil_gt _ _ _ ht'⟩

/-- C1 witness: the spec's worked example (`tick_size = 0.1`,
`precision = 1`, `bids = [(100,2),(99,3)]`, `asks = [(101,1),(102,4)]`,
zero signal and inventory). -/
theorem calculate_prices_non_crossing_witness :
    (0 : ℚ) < 1 / 10 ∧
    ((((calculate_prices
          { symbol := "BTCUSDT", order_qty := 1, c1 := 2, half_spread := 1 / 2,
            skew := 1 / 10, tick_size := 1 / 10, precision := 1 }
          [(100, 2), (99, 3)] [(101, 1), (102, 4)] 0 0).bid_tick : ℚ) * (1 / 10) < 100 ∧
      101 < ((calculate_prices
          { symbol := "BTCUSDT", order_qty := 1, c1 := 2, half_spread := 1 / 2,
            skew := 1 / 10, tick_size := 1 / 10, precision := 1 }
          [(100, 2), (99, 3)] [(101, 1), (102, 4)] 0 0).ask_tick : ℚ) * (1 / 10)) ∧
    ((1 : ℚ) / 10 = 1 / 10 ^ (1 : ℕ) →
      (calculate_prices
          { symbol := "BTCUSDT", order_qty := 1, c1 := 2, half_spread := 1 / 2,
            skew := 1 / 10, tick_size := 1 / 10, precision := 1 }
          [(100, 2), (99, 3)] [(101, 1), (102, 4)] 0 0).bid_price < 100 ∧
      101 < (calculate_prices
          { symbol := "BTCUSDT", order_qty := 1, c1 := 2, half_spread := 1 / 2,
            skew := 1 / 10, tick_size := 1 / 10, precision := 1 }
          [(100, 2), (99, 3)] [(101, 1), (102, 4)] 0 0).ask_price)) :=
  ⟨by norm_num,
   calculate_prices_non_crossing
     { symbol := "BTCUSDT", order_qty := 1, c1 := 2, half_spread := 1 / 2,
       skew := 1 / 10, tick_size := 1 / 10, precision := 1 }
     100 2 101 1 0 0 [(99, 3)] [(102, 4)] (by norm_num)⟩

/-- C1 counterexample: with `tick_size = 0.07` (whence the code's
`precision = int(round(-log10(0.07))) = 1`), `best_bid = 1.48`,
`best_ask = 1.49`, `half_spread = 0.006` and zero signal and
inventory, the post-guard raw bid is `1.479 < best_bid`, `bid_tick =
⌊1.479/0.07⌋ = 21`, the quantized price is `21 · 0.07 = 1.47`, and
rounding it to one decimal digit yields `bid_price = 1.5 ≥ best_bid =
1.48`: the final output crosses the top of book.  (The Python float
trace produces the same numbers: `floor(1.479/0.07) = 21`,
`f"{21*0.07:.1f}" = "1.5"`.)  This refutes the claim as stated for
arbitrary `tick_size > 0`. -/
theorem calculate_prices_crossing_counterexample :
    (0 : ℚ) < 7 / 100 ∧
    (calculate_prices
        { symbol := "BTCUSDT", order_qty := 1, c1 := 0, half_spread := 3 / 500,
          skew := 0, tick_size := 7 / 100, precision := 1 }
        [(37 / 25, 1)] [(149 / 100, 1)] 0 0).bid_price = 3 / 2 ∧
    ¬ ((calculate_prices
        { symbol := "BTCUSDT", order_qty := 1, c1 := 0, half_spread := 3 / 500,
          skew := 0, tick_size := 7 / 100, precision := 1 }
        [(37 / 25, 1)] [(149 / 100, 1)] 0 0).bid_price < 37 / 25) := by
  refine ⟨by norm_num, ?_, ?_⟩
  · simp only [calculate_prices]
    norm_num
    norm_num [roundPrec, pyRound]
  · simp only [calculate_prices]
    norm_num
    norm_num [roundPrec, pyRound]

/-- C4: the close-before-open sizing policy of `manage_orders`
(`strategy.py:219-228`): positive inventory shrinks the buy size to
`max(order_qty − inventory, 0)` and keeps the sell size at
`order_qty`; negative inventory mirrors; flat inventory quotes
`order_qty` on both sides. -/
theorem desired_qtys_close_before_open (order_qty position : ℚ) :
    (0 < position →
      desired_qtys order_qty position = (max (order_qty - position) 0, order_qty)) ∧
    (position < 0 →
      desired_qtys order_qty position = (order_qty, max (order_qty - |position|) 0)) ∧
    (position = 0 → desired_qtys order_qty position = (order_qty, order_qty)) := by
  refine ⟨fun h => ?_, fun h => ?_, fun h => ?_⟩
  · rw [desired_qtys, if_pos h]
  · rw [desired_qtys, if_neg (by linarith), if_pos h]
  · rw [desired_qtys, if_neg (by simp [h]), if_neg (by simp [h])]

/-- C4 witness: the spec's example `inventory = 0.4 · order_qty` with
`order_qty = 1`: the buy size becomes `0.6` while the sell size stays
`1`. -/
theorem desired_qtys_close_before_open_witness :
    (0 : ℚ) < 2 / 5 ∧ desired_qtys 1 (2 / 5) = (max (1 - 2 / 5) 0, 1) :=
  ⟨by norm_num, (desired_qtys_close_before_open 1 (2 / 5)).1 (by norm_num)⟩

/-- C10: `calculate_prices` tolerates an empty book side: the missing
best price is substituted by `0.0` (`strategy.py:124-125`), so with
empty bids the mid price is `best_ask / 2` (symmetrically `best_bid /
2` with empty asks), no failure occurs (the function is total), and
the resulting quote target is handed on to `manage_orders` by
`on_tick`. -/
theorem calculate_prices_empty_side (s : MarketMakingStrategy)
    (p q alpha position : ℚ) (rest : List (ℚ × ℚ))
    (fetched : Except Unit (List OpenOrder)) :
    (calculate_prices s [] ((p, q) :: rest) alpha position).mid_price = p / 2 ∧
    (calculate_prices s ((p, q) :: rest) [] alpha position).mid_price = p / 2 ∧
    on_tick s [] ((p, q) :: rest) alpha position fetched =
      manage_orders s (calculate_prices s [] ((p, q) :: rest) alpha position)
        fetched := by
  refine ⟨?_, ?_, rfl⟩
  · simp [calculate_prices]
  · simp [calculate_prices]

/-- C2: full-refresh reconciliation (`strategy.py:230-257`): a buy
create action is emitted iff the target `bid_tick` is absent from the
resting-buy tick set and the desired buy quantity is positive
(likewise for sells); whenever any create action is emitted the batch
starts with the cancel-all for the instrument; and when neither side
needs a create the pass emits no actions at all, leaving resting
orders untouched. -/
theorem manage_orders_full_refresh (s : MarketMakingStrategy)
    (t : QuoteTarget) (orders : List OpenOrder) :
    (OrderAction.create s.symbol .buy t.bid_price
          (desired_qtys s.order_qty t.position).1 ∈
        (manage_orders s t (.ok orders)).actions ↔
      t.bid_tick ∉ existing_ticks s.tick_size .buy orders ∧
        0 < (desired_qtys s.order_qty t.position).1) ∧
    (OrderAction.create s.symbol .sell t.ask_price
          (desired_qtys s.order_qty t.position).2 ∈
        (manage_orders s t (.ok orders)).actions ↔
      t.ask_tick ∉ existing_ticks s.tick_size .sell orders ∧
        0 < (desired_qtys s.order_qty t.position).2) ∧
    ((∃ sym side price amount,
        OrderAction.create sym side price amount ∈
          (manage_orders s t (.ok orders)).actions) →
      (manage_orders s t (.ok orders)).actions.head? =
        some (.cancelAll s.symbol)) ∧
    (¬(t.bid_tick ∉ existing_ticks s.tick_size .buy orders ∧
        0 < (desired_qtys s.order_qty t.position).1) →
      ¬(t.ask_tick ∉ existing_ticks s.tick_size .sell orders ∧
        0 < (desired_qtys s.order_qty t.position).2) →
      (manage_orders s t (.ok orders)).actions = []) := by
  by_cases h1 : t.bid_tick ∉ existing_ticks s.tick_size .buy orders ∧
      0 < (desired_qtys s.order_qty t.position).1 <;>
  by_cases h2 : t.ask_tick ∉ existing_ticks s.tick_size .sell orders ∧
      0 < (desired_qtys s.order_qty t.position).2 <;>
  simp [manage_orders, h1, h2]

/-- C2 witness: with no resting orders, unit desired size and a flat
position, the buy create for the target price is emitted. -/
theorem manage_orders_full_refresh_witness :
    OrderAction.create "BTCUSDT" .buy (999 / 10) (desired_qtys 1 0).1 ∈
      (manage_orders
        { symbol := "BTCUSDT", order_qty := 1, c1 := 2, half_spread := 1 / 2,
          skew := 1 / 10, tick_size := 1 / 10, precision := 1 }
        { bid_price := 999 / 10, ask_price := 1011 / 10, bid_tick := 999,
          ask_tick := 1011, mid_price := 201 / 2, position := 0 }
        (.ok [])).actions :=
  ((manage_orders_full_refresh
      { symbol := "BTCUSDT", order_qty := 1, c1 := 2, half_spread := 1 / 2,
        skew := 1 / 10, tick_size := 1 / 10, precision := 1 }
      { bid_price := 999 / 10, ask_price := 1011 / 10, bid_tick := 999,
        ask_tick := 1011, mid_price := 201 / 2, position := 0 }
      []).1).mpr
    ⟨by simp [existing_ticks], by norm_num [desired_qtys]⟩

/-- C8 (amended): reconciler idempotence holds when the first pass
creates orders on both sides and each created price re-quantizes to
its own tick (`int(round(price / tick_size)) = tick`, as holds when
`tick_size = 10 ^ (−precision)`): rerunning `manage_orders` with the
unchanged target against exactly the orders the first pass created
emits no actions.  When the first pass creates on only one side —
because the other side's tick is already resting — the cancel-all
removes that resting order and the second pass re-creates it, so the
claim as stated fails (see the counterexample). -/
theorem reconcile_idempotent_after_full_create (s : MarketMakingStrategy)
    (t : QuoteTarget) (orders : List OpenOrder)
    (hb : pyRound (t.bid_price / s.tick_size) = t.bid_tick)
    (ha : pyRound (t.ask_price / s.tick_size) = t.ask_tick)
    (h1 : t.bid_tick ∉ existing_ticks s.tick_size .buy orders ∧
      0 < (desired_qtys s.order_qty t.position).1)
    (h2 : t.ask_tick ∉ existing_ticks s.tick_size .sell orders ∧
      0 < (desired_qtys s.order_qty t.position).2) :
    manage_orders s t
        (.ok (created_orders (manage_orders s t (.ok orders)).actions)) =
      { actions := [], logs := [] } := by
  have hacts : (manage_orders s t (.ok orders)).actions =
      [.cancelAll s.symbol,
       .create s.symbol .buy t.bid_price (desired_qtys s.order_qty t.position).1,
       .create s.symbol .sell t.ask_price (desired_qtys s.order_qty t.position).2] := by
    simp [manage_orders, h1, h2]
  rw [hacts]
  simp [created_orders, manage_orders, existing_ticks, hb, ha]

/-- C8 amended-claim witness: tick `0.1`, the spec-example target
(bid `99.9`/tick `999`, ask `101.1`/tick `1011`), unit size, flat
inventory, no resting orders: the second pass over the created pair
emits nothing. -/
theorem reconcile_idempotent_after_full_create_witness :
    pyRound ((999 : ℚ) / 10 / (1 / 10)) = 999 ∧
    manage_orders
        { symbol := "BTCUSDT", order_qty := 1, c1 := 2, half_spread := 1 / 2,
          skew := 1 / 10, tick_size := 1 / 10, precision := 1 }
        { bid_price := 999 / 10, ask_price := 1011 / 10, bid_tick := 999,
          ask_tick := 1011, mid_price := 201 / 2, position := 0 }
        (.ok (created_orders
          (manage_orders
            { symbol := "BTCUSDT", order_qty := 1, c1 := 2, half_spread := 1 / 2,
              skew := 1 / 10, tick_size := 1 / 10, precision := 1 }
            { bid_price := 999 / 10, ask_price := 1011 / 10, bid_tick := 999,
              ask_tick := 1011, mid_price := 201 / 2, position := 0 }
            (.ok [])).actions)) =
      { actions := [], logs := [] } :=
  ⟨by norm_num [pyRound],
   reconcile_idempotent_after_full_create
     { symbol := "BTCUSDT", order_qty := 1, c1 := 2, half_spread := 1 / 2,
       skew := 1 / 10, tick_size := 1 / 10, precision := 1 }
     { bid_price := 999 / 10, ask_price := 1011 / 10, bid_tick := 999,
       ask_tick := 1011, mid_price := 201 / 2, position := 0 }
     []
     (by norm_num [pyRound]) (by norm_num [pyRound])
     ⟨by simp [existing_ticks], by norm_num [desired_qtys]⟩
     ⟨by simp [existing_ticks], by norm_num [desired_qtys]⟩⟩

/-- C8 counterexample: tick `0.1`, the spec-example target, unit
desired sizes, flat inventory, and a buy already resting at the target
tick `999`.  The first pass cancels everything and creates only the
sell, so the resting set afterwards is exactly the created sell order;
the second pass with the unchanged target and that resting set emits
actions again (a cancel-all and a buy create): `reconcile` run twice
is not action-free the second time. -/
theorem reconcile_not_idempotent :
    created_orders
        (manage_orders
          { symbol := "BTCUSDT", order_qty := 1, c1 := 2, half_spread := 1 / 2,
            skew := 1 / 10, tick_size := 1 / 10, precision := 1 }
          { bid_price := 999 / 10, ask_price := 1011 / 10, bid_tick := 999,
            ask_tick := 1011, mid_price := 201 / 2, position := 0 }
          (.ok [⟨.buy, 999 / 10⟩])).actions = [⟨.sell, 1011 / 10⟩] ∧
    (manage_orders
        { symbol := "BTCUSDT", order_qty := 1, c1 := 2, half_spread := 1 / 2,
          skew := 1 / 10, tick_size := 1 / 10, precision := 1 }
        { bid_price := 999 / 10, ask_price := 1011 / 10, bid_tick := 999,
          ask_tick := 1011, mid_price := 201 / 2, position := 0 }
        (.ok [⟨.sell, 1011 / 10⟩])).actions ≠ [] := by
  constructor
  · norm_num [manage_orders, existing_ticks, desired_qtys, created_orders, pyRound]
    rfl
  · norm_num [manage_orders, existing_ticks, desired_qtys, pyRound]
    simp

/-- C9 (amended): when fetching the resting orders fails,
`manage_orders` proceeds with an empty resting-order set, behaves
exactly as it would with an empty set (same actions, same log
records), and no error propagates; however — contrary to the claim —
no warning is logged for the failure: the handler
(`strategy.py:205-206`) is a bare silent fallback, and no pass ever
emits a warning-level record. -/
theorem manage_orders_fetch_failure_degrades (s : MarketMakingStrategy)
    (t : QuoteTarget) (e : Unit) (fetched : Except Unit (List OpenOrder)) :
    manage_orders s t (.error e) = manage_orders s t (.ok []) ∧
    LogLevel.warning ∉ (manage_orders s t fetched).logs := by
  constructor
  · rfl
  · simp only [manage_orders]
    split_ifs <;> simp

/-- C9 counterexample: at a concrete failing fetch the pass still
proceeds (it emits a cancel-all and two creates) but its log records
are exactly one INFO tick summary — no warning is logged for the
failure, refuting "a warning is logged". -/
theorem fetch_failure_logs_no_warning :
    (manage_orders
        { symbol := "BTCUSDT", order_qty := 1, c1 := 2, half_spread := 1 / 2,
          skew := 1 / 10, tick_size := 1 / 10, precision := 1 }
        { bid_price := 999 / 10, ask_price := 1011 / 10, bid_tick := 999,
          ask_tick := 1011, mid_price := 201 / 2, position := 0 }
        (.error ())).actions ≠ [] ∧
    (manage_orders
        { symbol := "BTCUSDT", order_qty := 1, c1 := 2, half_spread := 1 / 2,
          skew := 1 / 10, tick_size := 1 / 10, precision := 1 }
        { bid_price := 999 / 10, ask_price := 1011 / 10, bid_tick := 999,
          ask_tick := 1011, mid_price := 201 / 2, position := 0 }
        (.error ())).logs = [LogLevel.info] := by
  constructor
  · norm_num [manage_orders, existing_ticks, desired_qtys]
    simp
  · norm_num [manage_orders, existing_ticks, desired_qtys]

/-- The raw values retained by a successful `compute_alpha` call at
timestamp `ts` that computed `raw`: the purged history followed by the
new sample, projected to the raw components (the array built at
`obi_calculator.py:74`). -/
def window_vals (st : OBICalculator) (ts : ℤ) (raw : ℚ) : List ℚ :=
  (purge_expired st.window_ms ts st.history ++ [(ts, raw)]).map Prod.snd

/-- C3: signal-window invariant.  For a time-ordered window (the
`SignalWindow` data-model invariant) and a non-negative window
duration, after `compute_alpha` at timestamp `ts` every retained
sample's timestamp is `≥ ts − window_ms`; and on a successful
observation the purge happens before the append: the resulting history
is exactly the purged old history followed by the new sample
`(ts, raw)`. -/
theorem compute_alpha_window_invariant (st : OBICalculator) (ts : ℤ)
    (bids asks : List (ℚ × ℚ)) (hw : 0 ≤ st.window_ms)
    (hs : st.history.Pairwise (fun a b => a.1 ≤ b.1)) :
    (∀ p ∈ (compute_alpha st ts bids asks).1.history, ts - st.window_ms ≤ p.1) ∧
    (∀ raw, compute_raw_imbalance st.depth bids asks = .ok raw →
      (compute_alpha st ts bids asks).1.history =
        purge_expired st.window_ms ts st.history ++ [(ts, raw)]) := by
  cases hm : compute_raw_imbalance st.depth bids asks with
  | error e =>
    constructor
    · intro p hp
      simp only [compute_alpha, hm] at hp
      exact purge_expired_timestamp_bound _ _ _ hs p hp
    · intro raw hraw
      simp at hraw
  | ok raw =>
    constructor
    · intro p hp
      simp only [compute_alpha, hm] at hp
      rcases List.mem_append.mp hp with h | h
      · exact purge_expired_timestamp_bound _ _ _ hs p h
      · simp at h
        rw [h]
        omega
    · intro raw' hraw'
      simp at hraw'
      subst hraw'
      simp only [compute_alpha, hm]

/-- C3 witness: a sorted one-sample window at timestamp `0`, observed
at timestamp `1` with a ten-minute window. -/
theorem compute_alpha_window_invariant_witness :
    (0 : ℤ) ≤ 600000 ∧
    ∀ p ∈ (compute_alpha ⟨1 / 40, 600000, [(0, 5)]⟩ 1
        [(100, 2), (99, 3)] [(101, 1), (102, 4)]).1.history,
      (1 : ℤ) - 600000 ≤ p.1 :=
  ⟨by norm_num,
   (compute_alpha_window_invariant ⟨1 / 40, 600000, [(0, 5)]⟩ 1
     [(100, 2), (99, 3)] [(101, 1), (102, 4)] (by norm_num) (by simp)).1⟩

/-- C5: zero-variance signal.  On a successful observation the
retained raw-value list (including the newly appended sample) is
non-empty, so the standard deviation is always defined; the signal is
`0` when that standard deviation is zero — equivalently when the
population variance is zero — and otherwise equals `(raw − m) / s`
with `m` the mean and `s` the standard deviation of the retained raw
values. -/
theorem compute_alpha_zscore (st : OBICalculator) (ts : ℤ)
    (bids asks : List (ℚ × ℚ)) (raw : ℚ)
    (hraw : compute_raw_imbalance st.depth bids asks = .ok raw) :
    window_vals st ts raw ≠ [] ∧
    (pstd (window_vals st ts raw) = 0 →
      (compute_alpha st ts bids asks).2 = .ok 0) ∧
    (pstd (window_vals st ts raw) ≠ 0 →
      (compute_alpha st ts bids asks).2 =
        .ok (((raw : ℝ) - (listMean (window_vals st ts raw) : ℝ)) /
          pstd (window_vals st ts raw))) ∧
    (pstd (window_vals st ts raw) = 0 ↔ pvariance (window_vals st ts raw) = 0) := by
  refine ⟨by simp [window_vals], fun h => ?_, fun h => ?_, pstd_eq_zero_iff _⟩
  · simp only [compute_alpha, hraw, window_vals] at h ⊢
    rw [if_pos h]
  · simp only [compute_alpha, hraw, window_vals] at h ⊢
    rw [if_neg h]

/-- C5 witness: an empty history observed once — the single retained
sample has zero standard deviation, so the signal is `0`. -/
theorem compute_alpha_zscore_witness :
    compute_raw_imbalance (1 / 40) [(100, 2), (99, 3)] [(101, 1), (102, 4)] =
      .ok 0 ∧
    (compute_alpha ⟨1 / 40, 600000, []⟩ 0
        [(100, 2), (99, 3)] [(101, 1), (102, 4)]).2 = .ok 0 :=
  ⟨by norm_num [compute_raw_imbalance],
   (compute_alpha_zscore ⟨1 / 40, 600000, []⟩ 0
       [(100, 2), (99, 3)] [(101, 1), (102, 4)] 0
       (by norm_num [compute_raw_imbalance])).2.1
     (by simp [window_vals, purge_expired, pstd, pvariance, listMean])⟩

/-- C7: `compute_alpha` (the spec's `observe`) fails iff a book side
is empty; the failure is `InsufficientDepthError` — the sole
constructor of the error type, so no other error is possible — and
with both sides non-empty the call succeeds. -/
theorem compute_alpha_empty_side (st : OBICalculator) (ts : ℤ)
    (bids asks : List (ℚ × ℚ)) :
    ((compute_alpha st ts bids asks).2 = .error .insufficientDepthError ↔
      bids = [] ∨ asks = []) ∧
    (bids ≠ [] → asks ≠ [] →
      ∃ a, (compute_alpha st ts bids asks).2 = .ok a) := by
  cases bids with
  | nil =>
    refine ⟨by simp [compute_alpha, compute_raw_imbalance], by simp⟩
  | cons b bs =>
    cases asks with
    | nil =>
      refine ⟨by simp [compute_alpha, compute_raw_imbalance], by simp⟩
    | cons a as =>
      constructor
      · simp [compute_alpha, compute_raw_imbalance]
      · exact fun _ _ => ⟨_, rfl⟩

/-- C7 witness: a one-level book on each side succeeds. -/
theorem compute_alpha_empty_side_witness :
    ∃ a, (compute_alpha ⟨1 / 40, 600000, []⟩ 0 [(1, 1)] [(2, 1)]).2 = .ok a :=
  (compute_alpha_empty_side ⟨1 / 40, 600000, []⟩ 0 [(1, 1)] [(2, 1)]).2
    (by simp) (by simp)

/-- C6: the raw imbalance equals the band-rule sum difference — with
`mid = (best_bid + best_ask)/2`, the sum of bid quantities at prices
`≥ mid·(1−depth)` minus the sum of ask quantities at prices
`≤ mid·(1+depth)` — and it is linear in the quantities: scaling every
quantity by `c` scales the result by `c`, and adding two quantity
assignments over a common price skeleton (`zip` of prices with
quantities) adds the results. -/
theorem compute_raw_imbalance_band_linear (depth bb qb ba qa c : ℚ)
    (bts ats : List (ℚ × ℚ)) (qb' qa' : ℚ) (Pb Pa Qb Qc Qa Qd : List ℚ)
    (hlb : Qb.length = Pb.length) (hlb' : Qc.length = Pb.length)
    (hla : Qa.length = Pa.length) (hla' : Qd.length = Pa.length) :
    (compute_raw_imbalance depth ((bb, qb) :: bts) ((ba, qa) :: ats) =
      .ok (((((bb, qb) :: bts).filter
            (fun pq => ((bb + ba) / 2) * (1 - depth) ≤ pq.1)).map Prod.snd).sum -
          ((((ba, qa) :: ats).filter
            (fun pq => pq.1 ≤ ((bb + ba) / 2) * (1 + depth))).map Prod.snd).sum)) ∧
    (∀ r, compute_raw_imbalance depth ((bb, qb) :: bts) ((ba, qa) :: ats) = .ok r →
      compute_raw_imbalance depth (scale_qty c ((bb, qb) :: bts))
        (scale_qty c ((ba, qa) :: ats)) = .ok (c * r)) ∧
    (∀ r₁ r₂,
      compute_raw_imbalance depth ((bb :: Pb).zip (qb :: Qb))
          ((ba :: Pa).zip (qa :: Qa)) = .ok r₁ →
      compute_raw_imbalance depth ((bb :: Pb).zip (qb' :: Qc))
          ((ba :: Pa).zip (qa' :: Qd)) = .ok r₂ →
      compute_raw_imbalance depth
          ((bb :: Pb).zip (List.zipWith (· + ·) (qb :: Qb) (qb' :: Qc)))
          ((ba :: Pa).zip (List.zipWith (· + ·) (qa :: Qa) (qa' :: Qd))) =
        .ok (r₁ + r₂)) := by
  refine ⟨rfl, ?_, ?_⟩
  · intro r hr
    simp only [compute_raw_imbalance] at hr
    rw [show scale_qty c ((bb, qb) :: bts) = (bb, c * qb) :: scale_qty c bts from rfl,
        show scale_qty c ((ba, qa) :: ats) = (ba, c * qa) :: scale_qty c ats from rfl]
    simp only [compute_raw_imbalance]
    rw [show ((bb, c * qb) :: scale_qty c bts) = scale_qty c ((bb, qb) :: bts) from rfl,
        show ((ba, c * qa) :: scale_qty c ats) = scale_qty c ((ba, qa) :: ats) from rfl]
    rw [filter_map_sum_scale c ((bb, qb) :: bts)
          (fun x => decide (((bb + ba) / 2) * (1 - depth) ≤ x)),
        filter_map_sum_scale c ((ba, qa) :: ats)
          (fun x => decide (x ≤ ((bb + ba) / 2) * (1 + depth)))]
    simp only [Except.ok.injEq] at hr ⊢
    rw [← hr]
    ring
  · intro r₁ r₂ h₁ h₂
    have keyb := filter_map_sum_zip_add (bb :: Pb) (qb :: Qb) (qb' :: Qc)
      (fun x => decide (((bb + ba) / 2) * (1 - depth) ≤ x))
      (by simpa using hlb) (by simpa using hlb')
    have keya := filter_map_sum_zip_add (ba :: Pa) (qa :: Qa) (qa' :: Qd)
      (fun x => decide (x ≤ ((bb + ba) / 2) * (1 + depth)))
      (by simpa using hla) (by simpa using hla')
    simp only [List.zip_cons_cons, List.zipWith_cons_cons] at keyb keya h₁ h₂ ⊢
    simp only [compute_raw_imbalance, Except.ok.injEq] at h₁ h₂ ⊢
    rw [keyb, keya, ← h₁, ← h₂]
    ring

/-- C6 witness: the spec's example book (`depth = 0.025`,
`bids = [(100,2),(99,3)]`, `asks = [(101,1),(102,4)]`): doubling every
quantity doubles the raw imbalance (`2 · 0 = 0`). -/
theorem compute_raw_imbalance_band_linear_witness :
    ([2] : List ℚ).length = ([99] : List ℚ).length ∧
    compute_raw_imbalance (1 / 40) (scale_qty 2 [(100, 2), (99, 3)])
      (scale_qty 2 [(101, 1), (102, 4)]) = .ok (2 * 0) :=
  ⟨rfl,
   (compute_raw_imbalance_band_linear (1 / 40) 100 2 101 1 2 [(99, 3)]
       [(102, 4)] 3 4 [99] [102] [2] [2] [1] [1] rfl rfl rfl rfl).2.1 0
     (by norm_num [compute_raw_imbalance])⟩

end AlphaObi
